import Mathlib

/-!
Verification development for the AceFlow stage/state transition engines.

This file gives a shallow embedding, in Lean 4, of the stage-management
operations implemented by the repository in

  * `aceflow-stage.py`            (class `AceFlowStage`),
  * `aceflow/scripts/core/state_engine.py`          (class `PATEOASStateEngine`),
  * `aceflow/scripts/core/state_engine_enhanced.py` (class `PATEOASStateEngineEnhanced`),
  * `aceflow/scripts/core/multi_mode_state_engine.py` (class `MultiModeStateEngine`),

and proves or refutes the specification claims about them.

Modelling conventions, used consistently below:

  * JSON objects / Python dicts that the code iterates over or whose key set
    it tests are modelled as association lists `List (String × β)`; first
    binding wins on lookup, and updates overwrite in place (as Python dicts
    do).  Dicts that the code only reads and assigns pointwise (never
    iterating and never testing key membership) are modelled as total
    functions `String → β` updated with `Function.update`.
  * Wall-clock timestamps (`datetime.now()`) are modelled as an explicit
    `now` parameter threaded into each mutating operation; filesystem
    collaborators (the output-artifact existence check of the enhanced
    engine) are modelled as an injected boolean capability.
  * Interactive confirmation prompts (`input(...)`) only gate whether an
    operation proceeds; the embedding models the proceeding path, which is
    the path every claim is about.
  * Operations that fail (Python `return False` or a raised exception
    before any state is persisted) are modelled as `Option`/`Except`
    failures; the state is only ever persisted on the success path, exactly
    as in the source, where `save_state` runs after all checks.
-/

namespace TaskMaster

/-! ### Association-list dictionaries (Python `dict` semantics) -/

/-- Lookup in an association list: the first binding for `k` wins. -/
def dictGet {β : Type} (d : List (String × β)) (k : String) : Option β :=
  match d with
  | [] => none
  | kv :: rest => if kv.1 = k then some kv.2 else dictGet rest k

/-- Key-membership test, as Python `k in d`. -/
def dictContains {β : Type} (d : List (String × β)) (k : String) : Bool :=
  (dictGet d k).isSome

/-- Apply `f` to the value stored at `k`, leaving the list unchanged when the
key is absent (the sources guard every such mutation with a membership or
lookup check that makes the absent case a no-op). -/
def dictModify {β : Type} (d : List (String × β)) (k : String) (f : β → β) :
    List (String × β) :=
  d.map (fun kv => if kv.1 = k then (k, f kv.2) else kv)

/-- Python `d[k] = v`: overwrite an existing binding in place, otherwise
append a new binding at the end (insertion order preserved). -/
def dictSet {β : Type} (d : List (String × β)) (k : String) (v : β) :
    List (String × β) :=
  if dictContains d k then d.map (fun kv => if kv.1 = k then (k, v) else kv)
  else d ++ [(k, v)]

/-- Python `m.update(l)`: fold every binding of `l` into `m`, later entries
overwriting earlier ones on key collision. -/
def updList {β : Type} (m l : List (String × β)) : List (String × β) :=
  l.foldl (fun acc kv => dictSet acc kv.1 kv.2) m

/-- First-some choice on options (strict version of `orElse`). -/
def optOr {β : Type} : Option β → Option β → Option β
  | some a, _ => some a
  | none, b => b

/-! ### `aceflow-stage.py` — class `AceFlowStage`

The persisted pair of documents `current_state.json` / `stage_progress.json`
is modelled by `AFState` (the `flow` part of the current state; the static
`project.name` and the `project.last_updated` timestamp are carried through
unchanged by every operation and are elided) together with a `StagesMap` for
`progress["stages"]`.  Each per-stage record carries exactly the fields the
script reads or writes: `status`, `progress` and `last_updated`. -/

structure StageProg where
  status : String
  progress : Int
  last_updated : Option String
deriving DecidableEq

structure Flow where
  current_stage : String
  next_stage : Option String
  completed_stages : List String
  progress_percentage : Nat
deriving DecidableEq

structure AFState where
  mode : String
  flow : Flow
deriving DecidableEq

abbrev StagesMap := List (String × StageProg)

/-- `AceFlowStage.get_stage_order`: the fixed stage ordering of each mode;
unknown modes yield `[]`. -/
def get_stage_order : String → List String
  | "minimal" => ["analysis", "planning", "implementation", "validation"]
  | "standard" => ["user_stories", "tasks_planning", "test_design",
      "implementation", "testing", "review"]
  | "complete" => ["s1_user_story", "s2_tasks_group", "s3_testcases",
      "s4_implementation", "s5_test_report", "s6_codereview",
      "s7_demo_script", "s8_summary_report"]
  | "smart" => ["analysis", "planning", "implementation", "validation"]
  | _ => []

/-- The progress percentage `int((completed / total) * 100)` computed by
`next_stage`, `complete_stage` and `reset_stage`.  For the stage counts of
this script (`total ∈ {4, 6, 8}`) the Python float expression is exactly
`floor(100 * completed / total)`, i.e. Nat division; the theorems below
always assume a known mode, since an unknown mode (`total = 0`) makes the
Python expression raise `ZeroDivisionError` before anything is persisted. -/
def pct (completed total : Nat) : Nat :=
  100 * completed / total

/-- The `stage_order.index(stage) + 1` successor computation shared by
`next_stage`, `goto_stage` and `reset_stage`: `None` when the stage is the
last one or is not in the order (`ValueError` caught in the source). -/
def computeNext (order : List String) (s : String) : Option String :=
  match order.findIdx? (fun t => t == s) with
  | some i => order[i + 1]?
  | none => none

/-- `AceFlowStage.next_stage` (the path on which the operation proceeds:
the interactive confirmation for an uncompleted current stage is modelled
as granted, which is also the `--force` behaviour).  Returns `none` when
`flow.next_stage` is null — the source logs "already the last stage" and
returns without persisting anything. -/
def next_stage_op (st : AFState) (sp : StagesMap) (now : String) :
    Option (AFState × StagesMap) :=
  match st.flow.next_stage with
  | none => none
  | some ns =>
    let order := get_stage_order st.mode
    let old := st.flow.current_stage
    let completed1 :=
      if old ≠ "initialized" ∧ old ∉ st.flow.completed_stages then
        st.flow.completed_stages ++ [old]
      else st.flow.completed_stages
    let sp1 := dictModify sp ns (fun p =>
      { p with status := "in_progress", last_updated := some now })
    some ({ st with flow :=
      { current_stage := ns,
        next_stage := computeNext order ns,
        completed_stages := completed1,
        progress_percentage := pct completed1.length order.length } }, sp1)

/-- `AceFlowStage.complete_stage` (confirmation modelled as granted).
Fails — touching nothing — when the stage is missing from the progress
document. -/
def complete_stage_op (st : AFState) (sp : StagesMap) (stage : String)
    (now : String) : Option (AFState × StagesMap) :=
  if dictContains sp stage then
    let sp1 := dictModify sp stage (fun p =>
      { p with status := "completed", progress := 100,
               last_updated := some now })
    let completed1 :=
      if stage ∈ st.flow.completed_stages then st.flow.completed_stages
      else st.flow.completed_stages ++ [stage]
    let order := get_stage_order st.mode
    some ({ st with flow :=
      { st.flow with
        completed_stages := completed1,
        progress_percentage := pct completed1.length order.length } }, sp1)
  else none

/-- The record `reset_stage` writes for every stage strictly after the
target: status `pending`, progress `0`, and the `last_updated` key deleted. -/
def resetProg : StageProg :=
  { status := "pending", progress := 0, last_updated := none }

/-- `AceFlowStage.reset_stage` (confirmation modelled as granted).  Fails
when the target is not in the mode order, or when `completed_stages`
holds an id outside the order — in the source the list comprehension then
raises `ValueError` from `stage_order.index` and nothing is persisted. -/
def reset_stage_op (st : AFState) (sp : StagesMap) (target : String) :
    Option (AFState × StagesMap) :=
  let order := get_stage_order st.mode
  if target ∈ order then
    let tIdx := order.findIdx (fun t => t == target)
    let sp1 := (order.drop (tIdx + 1)).foldl
      (fun m s => dictModify m s (fun _ => resetProg)) sp
    if st.flow.completed_stages.all (fun s => order.contains s) then
      let completed1 := st.flow.completed_stages.filter
        (fun s => decide (order.findIdx (fun t => t == s) < tIdx))
      some ({ st with flow :=
        { current_stage := target,
          next_stage := order[tIdx + 1]?,
          completed_stages := completed1,
          progress_percentage := pct completed1.length order.length } }, sp1)
    else none
  else none

/-! ### `state_engine.py` — class `PATEOASStateEngine`

The persisted JSON document is modelled by `PState`.  `stage_status` is
only ever assigned and read pointwise by the engine, so it is a total
function updated with `Function.update`; the `progress` dict additionally
has its key set tested (membership in the progress dict), so it is a
function paired with its key list `progress_ids` (assignments only ever
happen after a successful membership test, so the key list is invariant). -/

structure Abnormality where
  id : String
  stage_id : String
  description : String
  severity : String
  status : String
deriving DecidableEq

structure PState where
  current_stage : String
  stage_status : String → String
  progress_ids : List String
  progress : String → Int
  memory_ids : List String
  abnormalities : List Abnormality
  last_updated : String

/-- The key order of `stage_definitions`, shared by both PATEOAS engines. -/
def pateoasStageIds : List String :=
  ["S1", "S2", "S3", "S4", "S5", "S6", "S7", "S8"]

/-- `stage_definitions[s]["next_stage"]`: outer `none` models the `KeyError`
raised on an id outside `S1`..`S8`, inner `none` is the `None` successor of
`S8`. -/
def stage_next : String → Option (Option String)
  | "S1" => some (some ("S2"))
  | "S2" => some (some ("S3"))
  | "S3" => some (some ("S4"))
  | "S4" => some (some ("S5"))
  | "S5" => some (some ("S6"))
  | "S6" => some (some ("S7"))
  | "S7" => some (some ("S8"))
  | "S8" => some none
  | _ => none

/-- The `memory_ids` append loop of `update_stage_progress`: each id is
appended only when not already present (`memory_ids=None` at the call sites
the claims concern behaves as the empty list). -/
def addMems (l mems : List String) : List String :=
  mems.foldl (fun acc m => if m ∈ acc then acc else acc ++ [m]) l

/-- `PATEOASStateEngine.update_stage_progress`.  Mirrors the source line by
line: unknown id → `ValueError`; the progress entry and `current_stage` are
set; at `progress >= 100` the stage is marked `completed` and, when a
successor exists, `current_stage` moves to it and it is marked
`in_progress` (auto-advance); below `100` the stage is marked
`in_progress`.  There is no range check on `progress` and no check of the
previous status of the stage. -/
def update_stage_progress (st : PState) (sid : String) (p : Int)
    (mems : List String) (now : String) : Except String PState :=
  if sid ∈ st.progress_ids then
    let base := { st with progress := Function.update st.progress sid p,
                          current_stage := sid }
    if p ≥ 100 then
      match stage_next sid with
      | none => Except.error ("KeyError")
      | some nxtOpt =>
        let st2 := { base with
          stage_status := Function.update base.stage_status sid ("completed") }
        let st3 :=
          match nxtOpt with
          | some nxt => { st2 with
              current_stage := nxt,
              stage_status := Function.update st2.stage_status nxt ("in_progress") }
          | none => st2
        Except.ok { st3 with memory_ids := addMems st3.memory_ids mems,
                             last_updated := now }
    else
      Except.ok { base with
        stage_status := Function.update base.stage_status sid ("in_progress"),
        memory_ids := addMems base.memory_ids mems,
        last_updated := now }
  else Except.error ("ValueError: invalid stage id")

/-! ### `state_engine_enhanced.py` — class `PATEOASStateEngineEnhanced`

Same persisted document as the plain engine plus the `associated_outputs`
and `review_status` dicts (carried through untouched by the operations the
claims concern).  The filesystem-backed `validate_stage_output` collaborator
is injected as the boolean `outputOk`; the dependency check of the source is
present but commented out and therefore absent from the embedding. -/

structure EState where
  current_stage : String
  stage_status : String → String
  progress_ids : List String
  progress : String → Int
  memory_ids : List String
  abnormalities : List Abnormality
  associated_outputs : String → List String
  review_status : String → String
  last_updated : String

/-- `PATEOASStateEngineEnhanced.update_stage_progress`: identical to the
plain engine except that reaching `progress >= 100` first requires the
output-validation collaborator to succeed. -/
def update_stage_progress_enhanced (st : EState) (sid : String) (p : Int)
    (mems : List String) (outputOk : Bool) (now : String) :
    Except String EState :=
  if sid ∈ st.progress_ids then
    if p ≥ 100 ∧ outputOk = false then
      Except.error ("ValueError: output validation failed")
    else
      let base := { st with progress := Function.update st.progress sid p,
                            current_stage := sid }
      if p ≥ 100 then
        match stage_next sid with
        | none => Except.error ("KeyError")
        | some nxtOpt =>
          let st2 := { base with
            stage_status := Function.update base.stage_status sid ("completed") }
          let st3 :=
            match nxtOpt with
            | some nxt => { st2 with
                current_stage := nxt,
                stage_status := Function.update st2.stage_status nxt ("in_progress") }
            | none => st2
          Except.ok { st3 with memory_ids := addMems st3.memory_ids mems,
                               last_updated := now }
      else
        Except.ok { base with
          stage_status := Function.update base.stage_status sid ("in_progress"),
          memory_ids := addMems base.memory_ids mems,
          last_updated := now }
  else Except.error ("ValueError: invalid stage id")

/-- `PATEOASStateEngineEnhanced.revert_to_stage`: sets the current stage
back, marks the target `in_progress`, and resets every stage strictly after
the target (in `stage_definitions` key order) to status `not_started` with
progress `0`. -/
def revert_to_stage (st : EState) (target : String) (now : String) :
    Except String EState :=
  if target ∈ pateoasStageIds then
    let idx := pateoasStageIds.findIdx (fun t => t == target)
    let rest := pateoasStageIds.drop (idx + 1)
    Except.ok { st with
      current_stage := target,
      stage_status := rest.foldl (fun g s => Function.update g s ("not_started"))
        (Function.update st.stage_status target ("in_progress")),
      progress := rest.foldl (fun g s => Function.update g s 0) st.progress,
      last_updated := now }
  else Except.error ("ValueError: invalid stage id")

/-! ### Navigation suggestions

`get_navigation_suggestion` is textually identical in `state_engine.py` and
`state_engine_enhanced.py`; it is modelled once, over `PState`.  Each
per-suggestion `action_suggestion`, `requires_confirmation` and
`rationale` entries are constant formatting payload and are elided; the
type, priority and message are kept. -/

inductive SuggestionType
  | abnormality
  | progress
  | transition
deriving DecidableEq

structure Suggestion where
  stype : SuggestionType
  priority : String
  message : String
deriving DecidableEq

/-- `PATEOASStateEngine.get_navigation_suggestion` (and the identical
enhanced version): a pure read of the state.  With at least one unresolved
abnormality recorded for the current stage it returns one abnormality
suggestion per such abnormality and nothing else; otherwise progress `< 100`
yields one progress suggestion; otherwise a transition suggestion when a
successor exists, and the empty list when not.  A `current_stage` outside
`S1`..`S8` with progress `>= 100` raises `KeyError` in the source; the
embedding returns `[]` there and the theorems below only quantify over known
stages. -/
def get_navigation_suggestion (st : PState) : List Suggestion :=
  let cs := st.current_stage
  let p : Int := if cs ∈ st.progress_ids then st.progress cs else 0
  let abns := st.abnormalities.filter
    (fun a => a.status == "unresolved" && a.stage_id == cs)
  if abns ≠ [] then
    abns.map (fun a =>
      { stype := SuggestionType.abnormality,
        priority := if a.severity = "high" then "high" else "medium",
        message := "【状态提示】需要处理异常: " ++ a.description })
  else if p < 100 then
    [{ stype := SuggestionType.progress, priority := "medium",
       message := "【状态提示】当前阶段 " ++ cs ++ " 进度: " ++ toString p ++
         "%，还需完成 " ++ toString (100 - p) ++ "%" }]
  else
    match stage_next cs with
    | some (some nxt) =>
      [{ stype := SuggestionType.transition, priority := "high",
         message := "【状态提示】阶段 " ++ cs ++ " 已完成，准备进入 " ++ nxt }]
    | _ => []

/-! ### `multi_mode_state_engine.py` — class `MultiModeStateEngine`

Stage metadata comes from the YAML `flow_modes` configuration, an external
collaborator: the embedding quantifies over an arbitrary `List StageInfo`.
The raw per-stage dicts held in `state["stage_states"]` have every key
optional (the engine reads them with `.get` defaults), which `RawStage`
mirrors with `Option` fields; datetimes are modelled as `Nat` instants. -/

structure StageInfo where
  id : String
  name : String
  display_name : String
  description : String
  deliverables : List String
  next_stage : Option String
  dependencies : List String
deriving DecidableEq

structure RawStage where
  status : Option String := none
  progress : Option Int := none
  start_time : Option Nat := none
  end_time : Option Nat := none
  assignee : Option (Option String) := none
  notes : Option (List String) := none
  deliverables_status : Option (List (String × Bool)) := none
deriving DecidableEq

structure MState where
  current_stage : Option String
  stage_states : List (String × RawStage)
deriving DecidableEq

/-- `get_stage_state(...).status.value` as used by `_check_dependencies`:
the raw status string with the `pending` default applied twice over
(missing stage entry, then missing `status` key).  A status string outside
the `StageStatus` enum raises `ValueError` in the source; the theorems only
instantiate enum values. -/
def rawStatusOf (st : MState) (sid : String) : String :=
  (((dictGet st.stage_states sid).map
    (fun d => d.status.getD ("pending"))).getD ("pending"))

/-- `MultiModeStateEngine._check_dependencies`: vacuously true for an
unknown stage or an empty dependency list, otherwise every declared
dependency must be `completed`. -/
def check_dependencies (stages : List StageInfo) (st : MState) (sid : String) :
    Bool :=
  match stages.find? (fun i => i.id == sid) with
  | none => true
  | some info =>
    if info.dependencies.isEmpty then true
    else info.dependencies.all (fun dep => rawStatusOf st dep == "completed")

/-- The typed failure of `start_stage` (the source signals it by logging and
returning `False` before touching any state). -/
inductive StartErr
  | dependencyNotMet
deriving DecidableEq

/-- `MultiModeStateEngine.start_stage`: dependency gate first; on success
`update_stage_state(stage_id, status=IN_PROGRESS, start_time=now,
assignee=assignee)` upserts the per-stage dict (the auto-timestamp branch of
`update_stage_state` is a no-op here because `start_time` is among the
kwargs) and `current_stage` is set. -/
def start_stage (stages : List StageInfo) (st : MState) (sid : String)
    (now : Nat) (assignee : Option String) : Except StartErr MState :=
  if check_dependencies stages st sid then
    let d0 := (dictGet st.stage_states sid).getD {}
    let d1 := { d0 with status := some ("in_progress"),
                        start_time := some now,
                        assignee := some assignee }
    Except.ok { current_stage := some sid,
                stage_states := dictSet st.stage_states sid d1 }
  else Except.error StartErr.dependencyNotMet

/-- Accumulator of the `_merge_stage_states` loop. -/
structure MergeAcc where
  merged : RawStage
  all_completed : Bool
  total : Int
  valid : Nat
deriving DecidableEq

/-- One iteration of the `_merge_stage_states` loop body, for a source
stage dict that was found. -/
def mergeStep (acc : MergeAcc) (d : RawStage) : MergeAcc :=
  { merged := { acc.merged with
      notes := some ((acc.merged.notes.getD []) ++ (d.notes.getD [])),
      deliverables_status := some (updList (acc.merged.deliverables_status.getD [])
        (d.deliverables_status.getD [])),
      start_time :=
        if d.start_time.isSome && acc.merged.start_time.isNone then d.start_time
        else acc.merged.start_time,
      end_time := if d.end_time.isSome then d.end_time else acc.merged.end_time },
    all_completed := acc.all_completed && (d.status == some ("completed")),
    total := acc.total + d.progress.getD 0,
    valid := acc.valid + 1 }

/-- The `for stage_id in stage_ids` loop of `_merge_stage_states`: ids whose
stage dict is missing are skipped. -/
def mergeLoop (sts : List (String × RawStage)) :
    List String → MergeAcc → MergeAcc
  | [], acc => acc
  | sid :: rest, acc =>
    match dictGet sts sid with
    | none => mergeLoop sts rest acc
    | some d => mergeLoop sts rest (mergeStep acc d)

/-- The initial `merged_state` dict of `_merge_stage_states`. -/
def mergeInit : MergeAcc :=
  { merged := { status := some ("pending"), progress := some 0,
                notes := some [], deliverables_status := some [] },
    all_completed := true, total := 0, valid := 0 }

/-- `MultiModeStateEngine._merge_stage_states`: after the loop, status
`completed` with progress forced to `100` when every found source was
`completed` (and at least one was found); otherwise, when at least one
source was found, status `in_progress` with progress the floor average
(`//`) of the progress values of the found sources. -/
def merge_stage_states (sts : List (String × RawStage)) (ids : List String) :
    RawStage :=
  let acc := mergeLoop sts ids mergeInit
  if acc.all_completed && decide (0 < acc.valid) then
    { acc.merged with status := some ("completed"), progress := some 100 }
  else if 0 < acc.valid then
    { acc.merged with status := some ("in_progress"),
                      progress := some (Int.fdiv acc.total acc.valid) }
  else acc.merged

/-! ### Concrete fixtures used by counterexamples and witnesses -/

/-- A reachable `PATEOASStateEngine` state: from the initial state of the engine,
`update_stage_progress("S1", 100)` followed by `update_stage_progress("S2",
100)` produces exactly this (S1 and S2 completed with progress 100,
auto-advanced onto S3). -/
def stW : PState :=
  { current_stage := "S3",
    stage_status := fun s =>
      if s = "S1" then "completed" else if s = "S2" then "completed"
      else if s = "S3" then "in_progress" else "not_started",
    progress_ids := pateoasStageIds,
    progress := fun s => if s = "S1" then 100 else if s = "S2" then 100 else 0,
    memory_ids := [],
    abnormalities := [],
    last_updated := "t0" }

/-- Enhanced-engine twin of `stW`. -/
def stWE : EState :=
  { current_stage := "S3",
    stage_status := fun s =>
      if s = "S1" then "completed" else if s = "S2" then "completed"
      else if s = "S3" then "in_progress" else "not_started",
    progress_ids := pateoasStageIds,
    progress := fun s => if s = "S1" then 100 else if s = "S2" then 100 else 0,
    memory_ids := [],
    abnormalities := [],
    associated_outputs := fun _ => [],
    review_status := fun _ => "pending",
    last_updated := "t0" }

/-- A fresh plain-engine state in which no stage is completed, so in
particular the dependency `S2` that `state_engine_enhanced.py` declares for
`S3` is not `completed`. -/
def stDep : PState :=
  { current_stage := "S1",
    stage_status := fun s => if s = "S1" then "in_progress" else "not_started",
    progress_ids := pateoasStageIds,
    progress := fun _ => 0,
    memory_ids := [],
    abnormalities := [],
    last_updated := "t0" }

/-- Enhanced-engine twin of `stDep`. -/
def stDepE : EState :=
  { current_stage := "S1",
    stage_status := fun s => if s = "S1" then "in_progress" else "not_started",
    progress_ids := pateoasStageIds,
    progress := fun _ => 0,
    memory_ids := [],
    abnormalities := [],
    associated_outputs := fun _ => [],
    review_status := fun _ => "pending",
    last_updated := "t0" }

def abnW1 : Abnormality :=
  { id := "ABN-1", stage_id := "S3", description := "d1",
    severity := "high", status := "unresolved" }

def abnW2 : Abnormality :=
  { id := "ABN-2", stage_id := "S3", description := "d2",
    severity := "low", status := "unresolved" }

/-- A state with two unresolved abnormalities recorded for the current
stage. -/
def stNav : PState :=
  { stW with abnormalities := [abnW1, abnW2] }

/-- A state on the final stage `S8` with progress 100 and no recorded
abnormalities. -/
def stDone : PState :=
  { current_stage := "S8",
    stage_status := fun _ => "completed",
    progress_ids := pateoasStageIds,
    progress := fun _ => 100,
    memory_ids := [],
    abnormalities := [],
    last_updated := "t0" }

/-- An enhanced-engine state with work recorded on stages after `S1`. -/
def stE : EState :=
  { current_stage := "S3",
    stage_status := fun s =>
      if s = "S1" then "completed" else if s = "S2" then "in_progress"
      else "not_started",
    progress_ids := pateoasStageIds,
    progress := fun s => if s = "S1" then 100 else if s = "S2" then 50 else 0,
    memory_ids := [],
    abnormalities := [],
    associated_outputs := fun _ => [],
    review_status := fun _ => "pending",
    last_updated := "t0" }

def spA : StageProg :=
  { status := "completed", progress := 100, last_updated := some ("ta") }

def spB : StageProg :=
  { status := "in_progress", progress := 50, last_updated := some ("tb") }

def spC : StageProg :=
  { status := "in_progress", progress := 20, last_updated := some ("tc") }

def spD : StageProg :=
  { status := "pending", progress := 0, last_updated := none }

/-- An `aceflow-stage.py` stage-progress document in `minimal` mode with
work recorded on `planning` (in progress, 50%). -/
def sp0 : StagesMap :=
  [("analysis", spA), ("planning", spB),
   ("implementation", spC), ("validation", spD)]

def fl0 : Flow :=
  { current_stage := "implementation",
    next_stage := some ("validation"),
    completed_stages := ["analysis", "planning"],
    progress_percentage := 50 }

def af0 : AFState :=
  { mode := "minimal", flow := fl0 }

/-- A multi-mode stage definition with two declared dependencies. -/
def infoC : StageInfo :=
  { id := "c", name := "build c", display_name := "Stage C",
    description := "builds c", deliverables := [],
    next_stage := none, dependencies := ["a", "b"] }

/-- State in which dependency `a` is completed but `b` is not. -/
def mSt : MState :=
  { current_stage := some ("a"),
    stage_states := [("a", { status := some ("completed") }),
                     ("b", { status := some ("pending") })] }

/-- State in which both declared dependencies are completed. -/
def mSt2 : MState :=
  { current_stage := some ("a"),
    stage_states := [("a", { status := some ("completed") }),
                     ("b", { status := some ("completed") })] }

/-- Merge source X of the counterexample: in progress with zero progress,
started at instant 5, ended at instant 10. -/
def dX : RawStage :=
  { status := some ("in_progress"), progress := some 0,
    notes := some (["nx"]), start_time := some 5, end_time := some 10 }

/-- Merge source Y of the counterexample: in progress with zero progress,
started at the earlier instant 3, ended at instant 7. -/
def dY : RawStage :=
  { status := some ("in_progress"), progress := some 0,
    notes := some (["ny"]), start_time := some 3, end_time := some 7 }

def exSts : List (String × RawStage) :=
  [("X", dX), ("Y", dY)]

/-- Merge source X of the example given in the specification: completed, 100%. -/
def dX2 : RawStage :=
  { status := some ("completed"), progress := some 100, notes := some (["a"]) }

/-- Merge source Y of the example given in the specification: in progress, 50%. -/
def dY2 : RawStage :=
  { status := some ("in_progress"), progress := some 50, notes := some (["b"]) }

def sts2 : List (String × RawStage) :=
  [("X", dX2), ("Y", dY2)]

/-- The source stage dicts actually found (and therefore processed) by the
`_merge_stage_states` loop: ids with no entry in `stage_states` are
skipped. -/
def foundSrcs (sts : List (String × RawStage)) (ids : List String) :
    List RawStage :=
  ids.filterMap (fun i => dictGet sts i)

/-! ### Dictionary lemmas -/

theorem optOr_none_left {β : Type} (b : Option β) : optOr none b = b := rfl

theorem optOr_some_left {β : Type} (a : β) (b : Option β) :
    optOr (some a) b = some a := rfl

theorem optOr_assoc {β : Type} (a b c : Option β) :
    optOr (optOr a b) c = optOr a (optOr b c) := by
  cases a <;> rfl

theorem optOr_none_right {β : Type} (a : Option β) : optOr a none = a := by
  cases a <;> rfl

theorem dictGet_nil {β : Type} (k : String) :
    dictGet ([] : List (String × β)) k = none := rfl

theorem dictGet_cons {β : Type} (kv : String × β) (d : List (String × β))
    (k : String) :
    dictGet (kv :: d) k = if kv.1 = k then some kv.2 else dictGet d k := rfl

theorem dictGet_append {β : Type} (a b : List (String × β)) (k : String) :
    dictGet (a ++ b) k = optOr (dictGet a k) (dictGet b k) := by
  induction a with
  | nil => simp [dictGet_nil, optOr_none_left]
  | cons kv rest ih =>
    by_cases h : kv.1 = k <;>
      simp [dictGet_cons, h, ih, optOr_some_left]

theorem dictModify_nil {β : Type} (k : String) (f : β → β) :
    dictModify ([] : List (String × β)) k f = [] := rfl

theorem dictModify_cons {β : Type} (kv : String × β) (d : List (String × β))
    (k : String) (f : β → β) :
    dictModify (kv :: d) k f =
      (if kv.1 = k then (k, f kv.2) else kv) :: dictModify d k f := rfl

theorem dictGet_dictModify_self {β : Type} (d : List (String × β)) (k : String)
    (f : β → β) : dictGet (dictModify d k f) k = (dictGet d k).map f := by
  induction d with
  | nil => rfl
  | cons kv rest ih =>
    by_cases h : kv.1 = k <;>
      simp [dictModify_cons, dictGet_cons, h, ih]

theorem dictGet_dictModify_ne {β : Type} (d : List (String × β)) (k k' : String)
    (f : β → β) (h : k' ≠ k) :
    dictGet (dictModify d k f) k' = dictGet d k' := by
  have hk' : k ≠ k' := fun he => h he.symm
  induction d with
  | nil => rfl
  | cons kv rest ih =>
    by_cases hk : kv.1 = k
    · have hkv : kv.1 ≠ k' := by rw [hk]; exact hk'
      simp [dictModify_cons, dictGet_cons, hk, hkv, hk', ih]
    · by_cases hkv : kv.1 = k' <;>
        simp [dictModify_cons, dictGet_cons, hk, hkv, hk', h, ih]

theorem dictContains_dictModify {β : Type} (d : List (String × β)) (k k' : String)
    (f : β → β) : dictContains (dictModify d k f) k' = dictContains d k' := by
  by_cases h : k' = k
  · subst h
    simp only [dictContains, dictGet_dictModify_self]
    cases dictGet d k' <;> rfl
  · simp [dictContains, dictGet_dictModify_ne d k k' f h]

theorem dictModify_const_idem {β : Type} (d : List (String × β)) (k : String)
    (c : β) :
    dictModify (dictModify d k (fun _ => c)) k (fun _ => c) =
      dictModify d k (fun _ => c) := by
  induction d with
  | nil => rfl
  | cons kv rest ih =>
    by_cases h : kv.1 = k <;> simp [dictModify_cons, h, ih]

theorem dictGet_map_set {β : Type} (d : List (String × β)) (k : String)
    (v : β) (h : dictContains d k = true) :
    dictGet (d.map (fun kv => if kv.1 = k then (k, v) else kv)) k = some v := by
  unfold dictContains at h
  induction d with
  | nil => simp [dictGet_nil] at h
  | cons kv rest ih =>
    by_cases hk : kv.1 = k
    · simp [dictGet_cons, hk]
    · simp [dictGet_cons, hk] at h ⊢
      exact ih h

theorem dictGet_map_set_ne {β : Type} (d : List (String × β)) (k k' : String)
    (v : β) (h : k' ≠ k) :
    dictGet (d.map (fun kv => if kv.1 = k then (k, v) else kv)) k' =
      dictGet d k' := by
  have hk' : k ≠ k' := fun he => h he.symm
  induction d with
  | nil => rfl
  | cons kv rest ih =>
    by_cases hk : kv.1 = k
    · have hkv : kv.1 ≠ k' := by rw [hk]; exact hk'
      simp [dictGet_cons, hk, hkv, hk', ih]
    · by_cases hkv : kv.1 = k' <;> simp [dictGet_cons, hk, hkv, h, ih]

theorem dictGet_dictSet_self {β : Type} (d : List (String × β)) (k : String)
    (v : β) : dictGet (dictSet d k v) k = some v := by
  unfold dictSet
  by_cases h : dictContains d k = true
  · rw [if_pos h]
    exact dictGet_map_set d k v h
  · rw [if_neg h, dictGet_append]
    unfold dictContains at h
    cases hd : dictGet d k with
    | none => simp [optOr_none_left, dictGet_cons]
    | some v' => rw [hd] at h; simp at h

theorem dictGet_dictSet_ne {β : Type} (d : List (String × β)) (k k' : String)
    (v : β) (h : k' ≠ k) : dictGet (dictSet d k v) k' = dictGet d k' := by
  unfold dictSet
  by_cases hc : dictContains d k = true
  · rw [if_pos hc]
    exact dictGet_map_set_ne d k k' v h
  · rw [if_neg hc, dictGet_append]
    have hk' : k ≠ k' := fun he => h he.symm
    simp [dictGet_cons, hk', dictGet_nil, optOr_none_right]

/-! ### Supporting lemmas -/

theorem foldl_update_apply {β : Type} (l : List String) (v : β)
    (f : String → β) (x : String) :
    (l.foldl (fun g s => Function.update g s v) f) x =
      if x ∈ l then v else f x := by
  induction l generalizing f with
  | nil => simp
  | cons a as ih =>
    simp only [List.foldl_cons, ih]
    by_cases hx : x ∈ as
    · simp [hx]
    · by_cases hxa : x = a
      · subst hxa
        simp [hx, Function.update_same]
      · simp [hx, hxa, Function.update_noteq hxa]

theorem mem_addMems_left {l ms : List String} {x : String} (h : x ∈ l) :
    x ∈ addMems l ms := by
  induction ms generalizing l with
  | nil => exact h
  | cons m rest ih =>
    show x ∈ addMems (if m ∈ l then l else l ++ [m]) rest
    by_cases hm : m ∈ l
    · simp only [hm, if_true]
      exact ih h
    · simp only [hm, if_false]
      exact ih (List.mem_append_left _ h)

theorem mem_addMems_right {l ms : List String} {x : String} (h : x ∈ ms) :
    x ∈ addMems l ms := by
  induction ms generalizing l with
  | nil => cases h
  | cons m rest ih =>
    show x ∈ addMems (if m ∈ l then l else l ++ [m]) rest
    rcases List.mem_cons.mp h with hx | hx
    · subst hx
      by_cases hm : x ∈ l
      · simp only [hm, if_true]
        exact mem_addMems_left hm
      · simp only [hm, if_false]
        exact mem_addMems_left (List.mem_append_right _ (List.mem_singleton.mpr rfl))
    · by_cases hm : m ∈ l <;> simp only [hm, if_true, if_false] <;> exact ih hx

theorem addMems_eq_self {l ms : List String} (h : ∀ x ∈ ms, x ∈ l) :
    addMems l ms = l := by
  induction ms generalizing l with
  | nil => rfl
  | cons m rest ih =>
    show addMems (if m ∈ l then l else l ++ [m]) rest = l
    have hm : m ∈ l := h m (List.mem_cons_self m rest)
    simp only [hm, if_true]
    exact ih (fun x hx => h x (List.mem_cons_of_mem m hx))

theorem addMems_idem (l ms : List String) :
    addMems (addMems l ms) ms = addMems l ms :=
  addMems_eq_self (fun _ hx => mem_addMems_right hx)

theorem findSome?_cons {α β : Type} (f : α → Option β) (a : α) (l : List α) :
    (a :: l).findSome? f = optOr (f a) (l.findSome? f) := by
  cases h : f a <;> simp [List.findSome?_cons, h, optOr]

theorem findSome?_append {α β : Type} (f : α → Option β) (a b : List α) :
    (a ++ b).findSome? f = optOr (a.findSome? f) (b.findSome? f) := by
  induction a with
  | nil => simp [optOr]
  | cons x xs ih =>
    simp only [List.cons_append, findSome?_cons, ih, optOr_assoc]

theorem findSome?_singleton {α β : Type} (f : α → Option β) (a : α) :
    ([a] : List α).findSome? f = f a := by
  rw [findSome?_cons]
  cases f a <;> rfl

theorem dictGet_updList {β : Type} (m l : List (String × β)) (k : String) :
    dictGet (updList m l) k = optOr (dictGet l.reverse k) (dictGet m k) := by
  induction l generalizing m with
  | nil => simp [updList, dictGet_nil, optOr_none_left]
  | cons kv rest ih =>
    show dictGet (updList (dictSet m kv.1 kv.2) rest) k = _
    rw [ih, List.reverse_cons, dictGet_append, optOr_assoc]
    congr 1
    by_cases hk : kv.1 = k
    · subst hk
      simp [dictGet_cons, dictGet_nil, dictGet_dictSet_self, optOr]
    · have hk' : k ≠ kv.1 := fun he => hk he.symm
      simp [dictGet_cons, dictGet_nil, hk, dictGet_dictSet_ne m kv.1 k kv.2 hk',
        optOr_none_left]

theorem dictGet_foldl_updList {β : Type} (ls : List (List (String × β)))
    (m : List (String × β)) (k : String) :
    dictGet (ls.foldl (fun a l => updList a l) m) k =
      optOr (dictGet ls.flatten.reverse k) (dictGet m k) := by
  induction ls generalizing m with
  | nil => simp [dictGet_nil, optOr_none_left]
  | cons l rest ih =>
    simp only [List.foldl_cons, ih, List.flatten_cons, List.reverse_append,
      dictGet_append, dictGet_updList, optOr_assoc]

theorem filter_eq_single_of_nodup (l : List String) (a : String)
    (hnd : l.Nodup) :
    l.filter (fun s => s == a) = if a ∈ l then [a] else [] := by
  induction l with
  | nil => simp
  | cons x xs ih =>
    rcases List.nodup_cons.mp hnd with ⟨hx, hxs⟩
    by_cases hxa : x = a
    · subst hxa
      have : xs.filter (fun s => s == x) = [] := by
        rw [List.filter_eq_nil_iff]
        intro b hb
        simp only [beq_iff_eq]
        exact fun he => hx (he ▸ hb)
      simp [List.filter_cons, this]
    · have hax : a ∈ x :: xs ↔ a ∈ xs := by
        constructor
        · intro h
          rcases List.mem_cons.mp h with h1 | h1
          · exact absurd h1.symm hxa
          · exact h1
        · exact List.mem_cons_of_mem x
      rw [List.filter_cons]
      simp only [beq_iff_eq, hxa, if_false]
      rw [ih hxs]
      by_cases ha : a ∈ xs <;> simp [ha, hax]

theorem update_update_cancel {β : Type} (f : String → β) (a b : String)
    (va vb : β) :
    Function.update (Function.update
        (Function.update (Function.update f a va) b vb) a va) b vb =
      Function.update (Function.update f a va) b vb := by
  by_cases hab : a = b
  · subst hab
    rw [Function.update_idem, Function.update_idem]
  · have h1 : Function.update (Function.update
        (Function.update f a va) b vb) a va =
        Function.update (Function.update f a va) b vb := by
      rw [← Function.update_comm hab, Function.update_idem]
    rw [h1, Function.update_idem]

/-! ### Claim C10 -/

/-- Claim C10 (confirmed): for every valid stage id `S` and every progress
value `p < 100`, `update_stage_progress(S, p)` succeeds, sets
`current_stage` to `S`, marks `S` in progress and stores `p` — over
arbitrary states, hence in particular when `S` was not the current stage
and when the declared dependencies of `S` are not completed: neither engine
consults dependencies on this path (the check in the enhanced engine is
commented out in the source). -/
theorem update_progress_retargets_current_stage
    (st : PState) (ste : EState) (sid : String) (p : Int) (mems : List String)
    (outputOk : Bool) (now : String)
    (hmem : sid ∈ st.progress_ids) (hmemE : sid ∈ ste.progress_ids)
    (hp : p < 100) :
    (∃ st2, update_stage_progress st sid p mems now = Except.ok st2 ∧
      st2.current_stage = sid ∧ st2.stage_status sid = "in_progress" ∧
      st2.progress sid = p) ∧
    (∃ st2, update_stage_progress_enhanced ste sid p mems outputOk now =
        Except.ok st2 ∧
      st2.current_stage = sid ∧ st2.stage_status sid = "in_progress" ∧
      st2.progress sid = p) := by
  have hnp : ¬ p ≥ 100 := not_le.mpr hp
  have hng : ¬ (p ≥ 100 ∧ outputOk = false) := fun h => hnp h.1
  constructor
  · have heq : update_stage_progress st sid p mems now = Except.ok
        { st with progress := Function.update st.progress sid p,
                  current_stage := sid,
                  stage_status := Function.update st.stage_status sid ("in_progress"),
                  memory_ids := addMems st.memory_ids mems,
                  last_updated := now } := by
      simp only [update_stage_progress, if_pos hmem, if_neg hnp]
    exact ⟨_, heq, rfl, Function.update_same _ _ _, Function.update_same _ _ _⟩
  · have heq : update_stage_progress_enhanced ste sid p mems outputOk now =
        Except.ok
        { ste with progress := Function.update ste.progress sid p,
                   current_stage := sid,
                   stage_status := Function.update ste.stage_status sid ("in_progress"),
                   memory_ids := addMems ste.memory_ids mems,
                   last_updated := now } := by
      simp only [update_stage_progress_enhanced, if_pos hmemE, if_neg hng,
        if_neg hnp]
    exact ⟨_, heq, rfl, Function.update_same _ _ _, Function.update_same _ _ _⟩

/-- Witness for C10 at a concrete input: `S3` is not the current stage of
`stDep`/`stDepE` and its declared dependency `S2` is not completed, yet the
update succeeds and retargets the current stage. -/
theorem update_progress_retargets_current_stage_witness :
    stDep.current_stage = "S1" ∧ stDep.stage_status ("S2") = "not_started" ∧
    stDepE.stage_status ("S2") = "not_started" ∧
    ((∃ st2, update_stage_progress stDep ("S3") 40 [] ("t1") = Except.ok st2 ∧
        st2.current_stage = "S3" ∧ st2.stage_status ("S3") = "in_progress" ∧
        st2.progress ("S3") = 40) ∧
     (∃ st2, update_stage_progress_enhanced stDepE ("S3") 40 [] false ("t1") =
         Except.ok st2 ∧
        st2.current_stage = "S3" ∧ st2.stage_status ("S3") = "in_progress" ∧
        st2.progress ("S3") = 40)) :=
  ⟨rfl, rfl, rfl,
    update_progress_retargets_current_stage stDep stDepE ("S3") 40 [] false
      ("t1") (by decide) (by decide) (by decide)⟩

/-! ### Claim C3 -/

/-- Claim C3, counterexample: on the reachable state `stW` the stage `S1`
is `completed` with progress 100, yet `update_stage_progress("S1", 50)`
does not fail with any error — no `AlreadyCompletedError` exists anywhere
in the code — and instead mutates the state, downgrading `S1` to
`in_progress` with progress 50. -/
theorem regress_completed_stage_not_rejected :
    stW.stage_status ("S1") = "completed" ∧ stW.progress ("S1") = 100 ∧
    (update_stage_progress stW ("S1") 50 [] ("t1")).isOk = true ∧
    (update_stage_progress stW ("S1") 50 [] ("t1")).map
      (fun s => s.stage_status ("S1")) = Except.ok ("in_progress") ∧
    (update_stage_progress stW ("S1") 50 [] ("t1")).map
      (fun s => s.progress ("S1")) = Except.ok 50 := by
  refine ⟨rfl, rfl, rfl, rfl, rfl⟩

/-- Claim C3, amended: calling `update_stage_progress` on a `completed`
stage with any progress `p < 100` succeeds in both engines, setting the
stage back to `in_progress` with progress `p` and retargeting
`current_stage` to it; the whole-project state is mutated, not preserved,
and no `AlreadyCompletedError` is raised (completion is not monotonic). -/
theorem regress_completed_stage_succeeds
    (st : PState) (ste : EState) (sid : String) (p : Int) (mems : List String)
    (outputOk : Bool) (now : String)
    (hmem : sid ∈ st.progress_ids) (hmemE : sid ∈ ste.progress_ids)
    (hcomp : st.stage_status sid = "completed")
    (hcompE : ste.stage_status sid = "completed")
    (hp : p < 100) :
    (∃ st2, update_stage_progress st sid p mems now = Except.ok st2 ∧
      st2.stage_status sid = "in_progress" ∧ st2.progress sid = p ∧
      st2.current_stage = sid) ∧
    (∃ st2, update_stage_progress_enhanced ste sid p mems outputOk now =
        Except.ok st2 ∧
      st2.stage_status sid = "in_progress" ∧ st2.progress sid = p ∧
      st2.current_stage = sid) := by
  have hnp : ¬ p ≥ 100 := not_le.mpr hp
  have hng : ¬ (p ≥ 100 ∧ outputOk = false) := fun h => hnp h.1
  constructor
  · have heq : update_stage_progress st sid p mems now = Except.ok
        { st with progress := Function.update st.progress sid p,
                  current_stage := sid,
                  stage_status := Function.update st.stage_status sid ("in_progress"),
                  memory_ids := addMems st.memory_ids mems,
                  last_updated := now } := by
      simp only [update_stage_progress, if_pos hmem, if_neg hnp]
    exact ⟨_, heq, Function.update_same _ _ _, Function.update_same _ _ _, rfl⟩
  · have heq : update_stage_progress_enhanced ste sid p mems outputOk now =
        Except.ok
        { ste with progress := Function.update ste.progress sid p,
                   current_stage := sid,
                   stage_status := Function.update ste.stage_status sid ("in_progress"),
                   memory_ids := addMems ste.memory_ids mems,
                   last_updated := now } := by
      simp only [update_stage_progress_enhanced, if_pos hmemE, if_neg hng,
        if_neg hnp]
    exact ⟨_, heq, Function.update_same _ _ _, Function.update_same _ _ _, rfl⟩

/-- Witness for the amended C3 at the concrete reachable state `stW`. -/
theorem regress_completed_stage_succeeds_witness :
    stW.stage_status ("S1") = "completed" ∧
    stWE.stage_status ("S1") = "completed" ∧
    ((∃ st2, update_stage_progress stW ("S1") 50 [] ("t2") = Except.ok st2 ∧
        st2.stage_status ("S1") = "in_progress" ∧ st2.progress ("S1") = 50 ∧
        st2.current_stage = "S1") ∧
     (∃ st2, update_stage_progress_enhanced stWE ("S1") 50 [] true ("t2") =
         Except.ok st2 ∧
        st2.stage_status ("S1") = "in_progress" ∧ st2.progress ("S1") = 50 ∧
        st2.current_stage = "S1")) :=
  ⟨rfl, rfl,
    regress_completed_stage_succeeds stW stWE ("S1") 50 [] true ("t2")
      (by decide) (by decide) rfl rfl (by decide)⟩

/-! ### Claim C7 -/

/-- Claim C7, counterexample: progress values outside `[0, 100]` are not
rejected — there is no `InvalidProgressError` or range check in either
engine.  `update_stage_progress("S1", 150)` succeeds and stores 150
(marking the stage completed), and `update_stage_progress("S1", -5)`
succeeds and stores -5. -/
theorem out_of_range_progress_not_rejected :
    (update_stage_progress stW ("S1") 150 [] ("t1")).isOk = true ∧
    (update_stage_progress stW ("S1") 150 [] ("t1")).map
      (fun s => s.progress ("S1")) = Except.ok 150 ∧
    (update_stage_progress stW ("S1") 150 [] ("t1")).map
      (fun s => s.stage_status ("S1")) = Except.ok ("completed") ∧
    (update_stage_progress stW ("S1") (-5) [] ("t1")).isOk = true ∧
    (update_stage_progress stW ("S1") (-5) [] ("t1")).map
      (fun s => s.progress ("S1")) = Except.ok (-5) ∧
    (update_stage_progress stW ("S1") (-5) [] ("t1")).map
      (fun s => s.stage_status ("S1")) = Except.ok ("in_progress") := by
  refine ⟨rfl, rfl, rfl, rfl, rfl, rfl⟩

/-- Claim C7, amended: `update_stage_progress` performs no range validation
at all.  For every integer `p` (including values above 100 and below 0) and
every valid stage id, the plain engine succeeds and stores `p` verbatim
(`p ≥ 100` marks the stage completed and auto-advances, `p < 100` marks it
in progress); the enhanced engine behaves identically provided only that
its output-validation collaborator passes when `p ≥ 100`. -/
theorem update_progress_accepts_any_progress
    (st : PState) (ste : EState) (sid : String) (p : Int) (mems : List String)
    (now : String)
    (hmem : sid ∈ st.progress_ids) (hmemE : sid ∈ ste.progress_ids)
    (hdef : (stage_next sid).isSome) :
    (∃ st2, update_stage_progress st sid p mems now = Except.ok st2 ∧
      st2.progress sid = p) ∧
    (∃ st2, update_stage_progress_enhanced ste sid p mems true now =
        Except.ok st2 ∧
      st2.progress sid = p) := by
  have hng : ¬ (p ≥ 100 ∧ true = false) := fun h => by cases h.2
  rcases Option.isSome_iff_exists.mp hdef with ⟨nxtOpt, hnext⟩
  constructor
  · by_cases hp : p ≥ 100
    · cases nxtOpt with
      | none =>
        have heq : update_stage_progress st sid p mems now = Except.ok
            { st with progress := Function.update st.progress sid p,
                      current_stage := sid,
                      stage_status := Function.update st.stage_status sid ("completed"),
                      memory_ids := addMems st.memory_ids mems,
                      last_updated := now } := by
          simp only [update_stage_progress, if_pos hmem, if_pos hp, hnext]
        exact ⟨_, heq, Function.update_same _ _ _⟩
      | some nxt =>
        have heq : update_stage_progress st sid p mems now = Except.ok
            { st with progress := Function.update st.progress sid p,
                      current_stage := nxt,
                      stage_status := Function.update
                        (Function.update st.stage_status sid ("completed"))
                        nxt ("in_progress"),
                      memory_ids := addMems st.memory_ids mems,
                      last_updated := now } := by
          simp only [update_stage_progress, if_pos hmem, if_pos hp, hnext]
        exact ⟨_, heq, Function.update_same _ _ _⟩
    · have heq : update_stage_progress st sid p mems now = Except.ok
          { st with progress := Function.update st.progress sid p,
                    current_stage := sid,
                    stage_status := Function.update st.stage_status sid ("in_progress"),
                    memory_ids := addMems st.memory_ids mems,
                    last_updated := now } := by
        simp only [update_stage_progress, if_pos hmem, if_neg hp]
      exact ⟨_, heq, Function.update_same _ _ _⟩
  · by_cases hp : p ≥ 100
    · cases nxtOpt with
      | none =>
        have heq : update_stage_progress_enhanced ste sid p mems true now =
            Except.ok
            { ste with progress := Function.update ste.progress sid p,
                       current_stage := sid,
                       stage_status := Function.update ste.stage_status sid ("completed"),
                       memory_ids := addMems ste.memory_ids mems,
                       last_updated := now } := by
          simp only [update_stage_progress_enhanced, if_pos hmemE, if_neg hng,
            if_pos hp, hnext]
        exact ⟨_, heq, Function.update_same _ _ _⟩
      | some nxt =>
        have heq : update_stage_progress_enhanced ste sid p mems true now =
            Except.ok
            { ste with progress := Function.update ste.progress sid p,
                       current_stage := nxt,
                       stage_status := Function.update
                         (Function.update ste.stage_status sid ("completed"))
                         nxt ("in_progress"),
                       memory_ids := addMems ste.memory_ids mems,
                       last_updated := now } := by
          simp only [update_stage_progress_enhanced, if_pos hmemE, if_neg hng,
            if_pos hp, hnext]
        exact ⟨_, heq, Function.update_same _ _ _⟩
    · have heq : update_stage_progress_enhanced ste sid p mems true now =
          Except.ok
          { ste with progress := Function.update ste.progress sid p,
                     current_stage := sid,
                     stage_status := Function.update ste.stage_status sid ("in_progress"),
                     memory_ids := addMems ste.memory_ids mems,
                     last_updated := now } := by
        simp only [update_stage_progress_enhanced, if_pos hmemE, if_neg hng,
          if_neg hp]
      exact ⟨_, heq, Function.update_same _ _ _⟩

/-- Witness for the amended C7 at the out-of-range value 150. -/
theorem update_progress_accepts_any_progress_witness :
    (∃ st2, update_stage_progress stW ("S1") 150 [] ("t3") = Except.ok st2 ∧
      st2.progress ("S1") = 150) ∧
    (∃ st2, update_stage_progress_enhanced stWE ("S1") 150 [] true ("t3") =
        Except.ok st2 ∧
      st2.progress ("S1") = 150) :=
  update_progress_accepts_any_progress stW stWE ("S1") 150 [] ("t3")
    (by decide) (by decide) (by decide)

/-! ### Claim C2 -/

/-- Claim C2, counterexample: `stW` is reachable (update S1 to 100, then S2
to 100 from the initial state) and has stage `S1` already completed, yet
re-invoking `update_stage_progress("S1", 100)` on it does not yield an
identical state — the auto-advance fires again, moving `current_stage`
from `S3` back to `S2` and downgrading `S2` from `completed` to
`in_progress`. -/
theorem update100_reinvocation_changes_state :
    stW.stage_status ("S1") = "completed" ∧ stW.current_stage = "S3" ∧
    stW.stage_status ("S2") = "completed" ∧
    (update_stage_progress stW ("S1") 100 [] ("t1")).map
      (fun s => s.current_stage) = Except.ok ("S2") ∧
    (update_stage_progress stW ("S1") 100 [] ("t1")).map
      (fun s => s.stage_status ("S2")) = Except.ok ("in_progress") :=
  ⟨rfl, rfl, rfl, rfl, rfl⟩

/-- Claim C2, amended: completing is idempotent only when re-invoked
immediately (twice in a row): `update_stage_progress(S, 100)` applied to
its own result returns that result unchanged, and `complete_stage` applied
to its own result returns it unchanged — in particular no duplicate entry
enters `completed_stages`.  On a general state in which the stage is merely
already completed, re-invocation is not a no-op: the auto-advance to the
successor fires again (see the counterexample). -/
theorem completion_idempotent_in_a_row :
    (∀ (st : PState) (sid : String) (mems : List String) (now : String)
        (st1 : PState),
      update_stage_progress st sid 100 mems now = Except.ok st1 →
      update_stage_progress st1 sid 100 mems now = Except.ok st1) ∧
    (∀ (st : AFState) (sp : StagesMap) (stage now : String)
        (r : AFState × StagesMap),
      complete_stage_op st sp stage now = some r →
      complete_stage_op r.1 r.2 stage now = some r) := by
  constructor
  · intro st sid mems now st1 h
    by_cases hmem : sid ∈ st.progress_ids
    · have h100 : (100 : Int) ≥ 100 := le_refl _
      cases hnext : stage_next sid with
      | none =>
        simp only [update_stage_progress, if_pos hmem, if_pos h100, hnext] at h
        exact Except.noConfusion h
      | some nxtOpt =>
        cases nxtOpt with
        | none =>
          simp only [update_stage_progress, if_pos hmem, if_pos h100, hnext,
            Except.ok.injEq] at h
          subst h
          simp only [update_stage_progress, if_pos hmem, if_pos h100, hnext,
            Except.ok.injEq, Function.update_idem, addMems_idem]
        | some nxt =>
          simp only [update_stage_progress, if_pos hmem, if_pos h100, hnext,
            Except.ok.injEq] at h
          subst h
          simp only [update_stage_progress, if_pos hmem, if_pos h100, hnext,
            Except.ok.injEq, Function.update_idem, addMems_idem,
            update_update_cancel]
    · simp only [update_stage_progress, if_neg hmem] at h
      exact Except.noConfusion h
  · intro st sp stage now r h
    by_cases hc : dictContains sp stage = true
    · simp only [complete_stage_op, if_pos hc, Option.some.injEq] at h
      subst h
      have hc1 : dictContains (dictModify sp stage (fun p =>
          { p with status := "completed", progress := 100,
                   last_updated := some now })) stage = true := by
        rw [dictContains_dictModify]
        exact hc
      have hmm : stage ∈ (if stage ∈ st.flow.completed_stages then
          st.flow.completed_stages
        else st.flow.completed_stages ++ [stage]) := by
        by_cases hm : stage ∈ st.flow.completed_stages
        · simp [hm]
        · simp [hm]
      simp only [complete_stage_op, if_pos hc1, if_pos hmm,
        dictModify_const_idem]
    · simp only [complete_stage_op, if_neg hc] at h
      exact Option.noConfusion h

/-- Witness for the amended C2, applying both idempotence statements at
concrete inputs. -/
theorem completion_idempotent_in_a_row_witness :
    (∃ st1, update_stage_progress stDep ("S1") 100 [] ("t1") = Except.ok st1 ∧
      update_stage_progress st1 ("S1") 100 [] ("t1") = Except.ok st1) ∧
    (∃ r, complete_stage_op af0 sp0 ("implementation") ("t1") = some r ∧
      complete_stage_op r.1 r.2 ("implementation") ("t1") = some r) := by
  constructor
  · exact ⟨_, rfl,
      completion_idempotent_in_a_row.1 stDep ("S1") [] ("t1") _ rfl⟩
  · exact ⟨_, rfl,
      completion_idempotent_in_a_row.2 af0 sp0 ("implementation") ("t1") _ rfl⟩

/-! ### Claim C1 -/

/-- Claim C1 (confirmed): each mutating operation of `AceFlowStage` —
advance (`next_stage`), `complete_stage`, `reset_stage` — persists a
`progress_percentage` equal to `floor(100 * |completed_stages| / |stages of
the current mode|)`, recomputed from the post-operation completed list and
stage count.  The hypothesis that the mode is known (`get_stage_order ≠ []`)
matches the source, where an unknown mode raises `ZeroDivisionError`
instead of persisting anything. -/
theorem aceflow_progress_percentage_recomputed
    (st : AFState) (sp : StagesMap) (now target stage : String)
    (horder : get_stage_order st.mode ≠ []) :
    (∀ r, next_stage_op st sp now = some r →
      r.1.flow.progress_percentage =
        pct r.1.flow.completed_stages.length
          (get_stage_order r.1.mode).length) ∧
    (∀ r, complete_stage_op st sp stage now = some r →
      r.1.flow.progress_percentage =
        pct r.1.flow.completed_stages.length
          (get_stage_order r.1.mode).length) ∧
    (∀ r, reset_stage_op st sp target = some r →
      r.1.flow.progress_percentage =
        pct r.1.flow.completed_stages.length
          (get_stage_order r.1.mode).length) := by
  refine ⟨?_, ?_, ?_⟩
  · intro r h
    cases hn : st.flow.next_stage with
    | none =>
      simp only [next_stage_op, hn] at h
      exact Option.noConfusion h
    | some ns =>
      simp only [next_stage_op, hn, Option.some.injEq] at h
      subst h
      rfl
  · intro r h
    by_cases hc : dictContains sp stage = true
    · simp only [complete_stage_op, if_pos hc, Option.some.injEq] at h
      subst h
      rfl
    · simp only [complete_stage_op, if_neg hc] at h
      exact Option.noConfusion h
  · intro r h
    by_cases ht : target ∈ get_stage_order st.mode
    · by_cases ha : st.flow.completed_stages.all
          (fun s => (get_stage_order st.mode).contains s) = true
      · simp only [reset_stage_op, if_pos ht, if_pos ha, Option.some.injEq] at h
        subst h
        rfl
      · simp only [reset_stage_op, if_pos ht, if_neg ha] at h
        exact Option.noConfusion h
    · simp only [reset_stage_op, if_neg ht] at h
      exact Option.noConfusion h

/-- Witness for C1, applying all three parts at concrete inputs in
`minimal` mode. -/
theorem aceflow_progress_percentage_recomputed_witness :
    get_stage_order af0.mode ≠ [] ∧
    (∃ r, next_stage_op af0 sp0 ("t9") = some r ∧
      r.1.flow.progress_percentage =
        pct r.1.flow.completed_stages.length
          (get_stage_order r.1.mode).length) ∧
    (∃ r, complete_stage_op af0 sp0 ("implementation") ("t9") = some r ∧
      r.1.flow.progress_percentage =
        pct r.1.flow.completed_stages.length
          (get_stage_order r.1.mode).length) ∧
    (∃ r, reset_stage_op af0 sp0 ("planning") = some r ∧
      r.1.flow.progress_percentage =
        pct r.1.flow.completed_stages.length
          (get_stage_order r.1.mode).length) := by
  have h := aceflow_progress_percentage_recomputed af0 sp0 ("t9") ("planning")
    ("implementation") (by decide)
  exact ⟨by decide, ⟨_, rfl, h.1 _ rfl⟩, ⟨_, rfl, h.2.1 _ rfl⟩,
    ⟨_, rfl, h.2.2 _ rfl⟩⟩

/-! ### Claim C8 -/

/-- Claim C8, counterexample: with two unresolved abnormalities recorded
for the current stage the advisor returns one suggestion per abnormality —
two, not exactly one. -/
theorem navigation_two_abnormalities :
    (stNav.abnormalities.filter (fun a =>
      a.status == "unresolved" && a.stage_id == stNav.current_stage)).length
      = 2 ∧
    (get_navigation_suggestion stNav).length = 2 ∧
    (∀ s ∈ get_navigation_suggestion stNav,
      s.stype = SuggestionType.abnormality) ∧
    ¬ (get_navigation_suggestion stNav).length = 1 := by
  refine ⟨rfl, rfl, ?_, by decide⟩
  decide

/-- Claim C8, amended: the navigation query is a pure read of the state
that (a) with at least one unresolved abnormality for the current stage
returns one suggestion of type abnormality per such abnormality
(suppressing progress and transition suggestions, regardless of the
progress value), and (b) returns the empty list when there is additionally
no unresolved abnormality, the progress of the current stage reads 100 and it
has no successor. -/
theorem navigation_suggestion_behavior (st : PState) :
    ((st.abnormalities.filter (fun a =>
        a.status == "unresolved" && a.stage_id == st.current_stage)) ≠ [] →
      (get_navigation_suggestion st).length =
        (st.abnormalities.filter (fun a =>
          a.status == "unresolved" && a.stage_id == st.current_stage)).length ∧
      ∀ s ∈ get_navigation_suggestion st,
        s.stype = SuggestionType.abnormality) ∧
    ((st.abnormalities.filter (fun a =>
        a.status == "unresolved" && a.stage_id == st.current_stage)) = [] →
      (if st.current_stage ∈ st.progress_ids then st.progress st.current_stage
        else 0) = 100 →
      stage_next st.current_stage = some none →
      get_navigation_suggestion st = []) := by
  constructor
  · intro hne
    constructor
    · simp only [get_navigation_suggestion, if_pos hne, List.length_map]
    · intro s hs
      simp only [get_navigation_suggestion, if_pos hne, List.mem_map] at hs
      rcases hs with ⟨a, _, rfl⟩
      rfl
  · intro he hp hnext
    have hnn : ¬ ((st.abnormalities.filter (fun a =>
        a.status == "unresolved" && a.stage_id == st.current_stage)) ≠ []) :=
      not_not_intro he
    simp only [get_navigation_suggestion, if_neg hnn, hp, hnext]
    norm_num

/-- Witness for the amended C8 at two concrete states: `stNav` (two
unresolved abnormalities) and `stDone` (completed final stage, no
abnormalities). -/
theorem navigation_suggestion_behavior_witness :
    ((stNav.abnormalities.filter (fun a =>
        a.status == "unresolved" && a.stage_id == stNav.current_stage)) ≠ [] ∧
      (get_navigation_suggestion stNav).length =
        (stNav.abnormalities.filter (fun a =>
          a.status == "unresolved" && a.stage_id == stNav.current_stage)).length ∧
      ∀ s ∈ get_navigation_suggestion stNav,
        s.stype = SuggestionType.abnormality) ∧
    get_navigation_suggestion stDone = [] := by
  constructor
  · have h := (navigation_suggestion_behavior stNav).1 (by decide)
    exact ⟨by decide, h.1, h.2⟩
  · exact (navigation_suggestion_behavior stDone).2 rfl rfl rfl

/-! ### Claim C9 -/

/-- Claim C9, counterexample: `revert_to_stage` is not a pure
current-stage move — reverting `stE` to `S1` clears the downstream work on
`S2` (status `in_progress` → `not_started`, progress 50 → 0), contradicting
the claim that downstream per-stage state is left unchanged. -/
theorem revert_clears_downstream_counterexample :
    stE.stage_status ("S2") = "in_progress" ∧ stE.progress ("S2") = 50 ∧
    (revert_to_stage stE ("S1") ("t2")).map (fun s => s.stage_status ("S2"))
      = Except.ok ("not_started") ∧
    (revert_to_stage stE ("S1") ("t2")).map (fun s => s.progress ("S2"))
      = Except.ok 0 :=
  ⟨rfl, rfl, rfl, rfl⟩

/-- Claim C9, amended: `revert_to_stage(target)` sets `current_stage` to the
target, marks it `in_progress`, and — like a reset, not softer than one —
writes status `not_started` and progress `0` over every stage strictly
after the target in `stage_definitions` order; stages at or before the
target (other than the status of the target itself) and all other state components are
untouched. -/
theorem revert_to_stage_behavior (st : EState) (target now : String)
    (hmem : target ∈ pateoasStageIds) :
    ∃ st2, revert_to_stage st target now = Except.ok st2 ∧
      st2.current_stage = target ∧
      st2.stage_status target = "in_progress" ∧
      (∀ s ∈ pateoasStageIds.drop
          (pateoasStageIds.findIdx (fun t => t == target) + 1),
        st2.stage_status s = "not_started" ∧ st2.progress s = 0) ∧
      (∀ s, s ∉ pateoasStageIds.drop
          (pateoasStageIds.findIdx (fun t => t == target) + 1) →
        s ≠ target → st2.stage_status s = st.stage_status s) ∧
      (∀ s, s ∉ pateoasStageIds.drop
          (pateoasStageIds.findIdx (fun t => t == target) + 1) →
        st2.progress s = st.progress s) ∧
      st2.progress_ids = st.progress_ids ∧
      st2.memory_ids = st.memory_ids ∧
      st2.abnormalities = st.abnormalities ∧
      st2.associated_outputs = st.associated_outputs ∧
      st2.review_status = st.review_status := by
  have hni : target ∉ pateoasStageIds.drop
      (pateoasStageIds.findIdx (fun t => t == target) + 1) := by
    fin_cases hmem <;> decide
  have heq : revert_to_stage st target now = Except.ok
      { st with
        current_stage := target,
        stage_status := (pateoasStageIds.drop
            (pateoasStageIds.findIdx (fun t => t == target) + 1)).foldl
          (fun g s => Function.update g s ("not_started"))
          (Function.update st.stage_status target ("in_progress")),
        progress := (pateoasStageIds.drop
            (pateoasStageIds.findIdx (fun t => t == target) + 1)).foldl
          (fun g s => Function.update g s 0) st.progress,
        last_updated := now } := by
    simp only [revert_to_stage, if_pos hmem]
  refine ⟨_, heq, rfl, ?_, ?_, ?_, ?_, rfl, rfl, rfl, rfl, rfl⟩
  · simp only [foldl_update_apply, if_neg hni]
    exact Function.update_same _ _ _
  · intro s hs
    constructor <;> simp only [foldl_update_apply, if_pos hs]
  · intro s hs hst
    simp only [foldl_update_apply, if_neg hs]
    exact Function.update_noteq hst _ _
  · intro s hs
    simp only [foldl_update_apply, if_neg hs]

/-- Witness for the amended C9 at the concrete state `stE` with target
`S2`. -/
theorem revert_to_stage_behavior_witness :
    ∃ st2, revert_to_stage stE ("S2") ("t3") = Except.ok st2 ∧
      st2.current_stage = "S2" ∧
      st2.stage_status ("S2") = "in_progress" ∧
      (∀ s ∈ pateoasStageIds.drop
          (pateoasStageIds.findIdx (fun t => t == "S2") + 1),
        st2.stage_status s = "not_started" ∧ st2.progress s = 0) ∧
      (∀ s, s ∉ pateoasStageIds.drop
          (pateoasStageIds.findIdx (fun t => t == "S2") + 1) →
        s ≠ "S2" → st2.stage_status s = stE.stage_status s) ∧
      (∀ s, s ∉ pateoasStageIds.drop
          (pateoasStageIds.findIdx (fun t => t == "S2") + 1) →
        st2.progress s = stE.progress s) ∧
      st2.progress_ids = stE.progress_ids ∧
      st2.memory_ids = stE.memory_ids ∧
      st2.abnormalities = stE.abnormalities ∧
      st2.associated_outputs = stE.associated_outputs ∧
      st2.review_status = stE.review_status :=
  revert_to_stage_behavior stE ("S2") ("t3") (by decide)

/-! ### Claim C4 -/

/-- Claim C4 (confirmed): `start_stage` fails with the dependency error —
mutating nothing, since the source returns before any write — whenever at
least one declared dependency of the stage does not have status
`completed`, the check covering every declared dependency; when all
declared dependencies are `completed` it succeeds, marks the stage
`in_progress` and makes it the current stage. -/
theorem start_stage_dependency_gate
    (stages : List StageInfo) (st : MState) (sid : String) (now : Nat)
    (assignee : Option String) (info : StageInfo)
    (hfind : stages.find? (fun i => i.id == sid) = some info) :
    ((∃ dep ∈ info.dependencies, rawStatusOf st dep ≠ "completed") →
      start_stage stages st sid now assignee =
        Except.error StartErr.dependencyNotMet) ∧
    ((∀ dep ∈ info.dependencies, rawStatusOf st dep = "completed") →
      ∃ st2, start_stage stages st sid now assignee = Except.ok st2 ∧
        st2.current_stage = some sid ∧ rawStatusOf st2 sid = "in_progress") := by
  constructor
  · rintro ⟨dep, hdep, hne⟩
    have hchk : check_dependencies stages st sid = false := by
      unfold check_dependencies
      rw [hfind]
      show (if info.dependencies.isEmpty = true then true
        else info.dependencies.all
          (fun d => rawStatusOf st d == "completed")) = false
      cases hd : info.dependencies with
      | nil =>
        rw [hd] at hdep
        cases hdep
      | cons a as =>
        have hdep2 : dep ∈ a :: as := hd ▸ hdep
        have hne2 : ((a :: as).all
            (fun d => rawStatusOf st d == "completed")) = false := by
          rw [Bool.eq_false_iff, Ne, List.all_eq_true]
          intro hall
          exact hne (by simpa [beq_iff_eq] using hall dep hdep2)
        simp only [List.isEmpty_cons, Bool.false_eq_true, if_false, hne2]
    simp only [start_stage, hchk, Bool.false_eq_true, if_false]
  · intro hall
    have hchk : check_dependencies stages st sid = true := by
      unfold check_dependencies
      rw [hfind]
      show (if info.dependencies.isEmpty = true then true
        else info.dependencies.all
          (fun d => rawStatusOf st d == "completed")) = true
      by_cases hd : info.dependencies.isEmpty = true
      · rw [if_pos hd]
      · rw [if_neg hd, List.all_eq_true]
        intro x hx
        simp only [beq_iff_eq]
        exact hall x hx
    have heq : start_stage stages st sid now assignee = Except.ok
        { current_stage := some sid,
          stage_states := dictSet st.stage_states sid
            { (dictGet st.stage_states sid).getD {} with
              status := some ("in_progress"), start_time := some now,
              assignee := some assignee } } := by
      simp only [start_stage, hchk, if_true]
    refine ⟨_, heq, rfl, ?_⟩
    unfold rawStatusOf
    rw [dictGet_dictSet_self]
    rfl

/-- Witness for C4: with dependencies `a` (completed) and `b` (pending) the
start of stage `c` fails on the single unmet dependency; with both
completed it succeeds. -/
theorem start_stage_dependency_gate_witness :
    start_stage [infoC] mSt ("c") 42 none =
      Except.error StartErr.dependencyNotMet ∧
    (∃ st2, start_stage [infoC] mSt2 ("c") 42 none = Except.ok st2 ∧
      st2.current_stage = some ("c") ∧ rawStatusOf st2 ("c") = "in_progress") := by
  constructor
  · exact (start_stage_dependency_gate [infoC] mSt ("c") 42 none infoC rfl).1
      ⟨"b", by decide, by decide⟩
  · exact (start_stage_dependency_gate [infoC] mSt2 ("c") 42 none infoC rfl).2
      (by decide)

/-! ### Claim C5 -/

/-- Claim C5, counterexample: resetting to `planning` in `minimal` mode
leaves the target stage itself untouched — the persisted `planning` record
still has status `in_progress` and progress 50, not `pending`/0 as the
claim states; only the stages strictly after the target are cleared. -/
theorem reset_target_stage_not_cleared :
    (dictGet sp0 ("planning")).map (fun p => p.status) = some ("in_progress") ∧
    (dictGet sp0 ("planning")).map (fun p => p.progress) = some 50 ∧
    (reset_stage_op af0 sp0 ("planning")).map
      (fun r => dictGet r.2 ("planning")) = some (dictGet sp0 ("planning")) ∧
    (reset_stage_op af0 sp0 ("planning")).map
      (fun r => (dictGet r.2 ("planning")).map (fun p => p.status))
      = some (some ("in_progress")) :=
  ⟨rfl, rfl, rfl, rfl⟩

/-- Claim C5, amended: for `minimal` mode `[analysis, planning,
implementation, validation]`, `reset_stage("planning")` leaves the
per-stage state of `analysis` **and of the target `planning` itself**
untouched, clears only `implementation` and `validation` (strictly after
the target) to `pending`/0 with the `last_updated` timestamp removed,
truncates `completed_stages` to the ids strictly before the target (at most
`[analysis]`, and only if analysis was completed), sets `current_stage` to
`planning` and recomputes the percentage from the truncated list. -/
theorem reset_planning_behavior (f : Flow) (sp : StagesMap)
    (hsub : ∀ s ∈ f.completed_stages, s ∈ get_stage_order ("minimal"))
    (hnd : f.completed_stages.Nodup) :
    ∃ r, reset_stage_op { mode := "minimal", flow := f } sp ("planning")
        = some r ∧
      r.1.flow.current_stage = "planning" ∧
      r.1.flow.next_stage = some ("implementation") ∧
      r.1.flow.completed_stages =
        (if ("analysis") ∈ f.completed_stages then ["analysis"] else []) ∧
      r.1.flow.progress_percentage =
        (if ("analysis") ∈ f.completed_stages then 25 else 0) ∧
      dictGet r.2 ("analysis") = dictGet sp ("analysis") ∧
      dictGet r.2 ("planning") = dictGet sp ("planning") ∧
      dictGet r.2 ("implementation") =
        (dictGet sp ("implementation")).map (fun _ => resetProg) ∧
      dictGet r.2 ("validation") =
        (dictGet sp ("validation")).map (fun _ => resetProg) := by
  have hall : f.completed_stages.all
      (fun s => (get_stage_order ("minimal")).contains s) = true := by
    rw [List.all_eq_true]
    intro s hs
    have hmem := hsub s hs
    fin_cases hmem <;> decide
  have hmemT : ("planning" : String) ∈ get_stage_order ("minimal") := by decide
  have heq : reset_stage_op { mode := "minimal", flow := f } sp ("planning") =
      some ({ mode := "minimal", flow :=
        { current_stage := "planning",
          next_stage := some ("implementation"),
          completed_stages := f.completed_stages.filter (fun s =>
            decide ((get_stage_order ("minimal")).findIdx
              (fun t => t == s) < 1)),
          progress_percentage := pct (f.completed_stages.filter (fun s =>
            decide ((get_stage_order ("minimal")).findIdx
              (fun t => t == s) < 1))).length 4 } },
        dictModify (dictModify sp ("implementation") (fun _ => resetProg))
          ("validation") (fun _ => resetProg)) := by
    simp only [reset_stage_op, if_pos hmemT, if_pos hall]
    rfl
  have hpt : ∀ s ∈ f.completed_stages,
      (decide ((get_stage_order ("minimal")).findIdx (fun t => t == s) < 1))
        = (s == "analysis") := by
    intro s hs
    have hmem := hsub s hs
    fin_cases hmem <;> decide
  have hfilter : f.completed_stages.filter (fun s =>
      decide ((get_stage_order ("minimal")).findIdx (fun t => t == s) < 1)) =
      (if ("analysis") ∈ f.completed_stages then ["analysis"] else []) := by
    rw [List.filter_congr hpt]
    exact filter_eq_single_of_nodup _ _ hnd
  refine ⟨_, heq, rfl, rfl, hfilter, ?_, ?_, ?_, ?_, ?_⟩
  · show pct (f.completed_stages.filter _).length 4 = _
    rw [hfilter]
    by_cases hm : ("analysis" : String) ∈ f.completed_stages <;>
      simp only [hm, if_true, if_false] <;> decide
  · rw [dictGet_dictModify_ne _ _ _ _ (by decide),
      dictGet_dictModify_ne _ _ _ _ (by decide)]
  · rw [dictGet_dictModify_ne _ _ _ _ (by decide),
      dictGet_dictModify_ne _ _ _ _ (by decide)]
  · rw [dictGet_dictModify_ne _ _ _ _ (by decide),
      dictGet_dictModify_self]
  · rw [dictGet_dictModify_self,
      dictGet_dictModify_ne _ _ _ _ (by decide)]

/-- Witness for the amended C5 at the concrete fixture (`planning` in
progress at 50%, `analysis` and `planning` recorded completed). -/
theorem reset_planning_behavior_witness :
    ∃ r, reset_stage_op { mode := "minimal", flow := fl0 } sp0 ("planning")
        = some r ∧
      r.1.flow.current_stage = "planning" ∧
      r.1.flow.next_stage = some ("implementation") ∧
      r.1.flow.completed_stages =
        (if ("analysis") ∈ fl0.completed_stages then ["analysis"] else []) ∧
      r.1.flow.progress_percentage =
        (if ("analysis") ∈ fl0.completed_stages then 25 else 0) ∧
      dictGet r.2 ("analysis") = dictGet sp0 ("analysis") ∧
      dictGet r.2 ("planning") = dictGet sp0 ("planning") ∧
      dictGet r.2 ("implementation") =
        (dictGet sp0 ("implementation")).map (fun _ => resetProg) ∧
      dictGet r.2 ("validation") =
        (dictGet sp0 ("validation")).map (fun _ => resetProg) :=
  reset_planning_behavior fl0 sp0 (by decide) (by decide)

/-! ### Claim C6 -/

theorem mergeStep_start (acc : MergeAcc) (d : RawStage) :
    (mergeStep acc d).merged.start_time =
      optOr acc.merged.start_time d.start_time := by
  cases ha : acc.merged.start_time <;> cases hdt : d.start_time <;>
    simp [mergeStep, optOr, ha, hdt]

theorem mergeStep_end (acc : MergeAcc) (d : RawStage) :
    (mergeStep acc d).merged.end_time =
      optOr d.end_time acc.merged.end_time := by
  cases hdt : d.end_time <;> simp [mergeStep, optOr, hdt]

/-- Characterisation of the `_merge_stage_states` loop over the found
sources: the accumulator counters, completion flag and merged payload are
each a fold of the corresponding source fields. -/
theorem mergeLoop_spec (sts : List (String × RawStage)) (ids : List String)
    (acc : MergeAcc) (l0 : List String) (d0 : List (String × Bool))
    (hn : acc.merged.notes = some l0)
    (hd : acc.merged.deliverables_status = some d0) :
    (mergeLoop sts ids acc).valid = acc.valid + (foundSrcs sts ids).length ∧
    (mergeLoop sts ids acc).total =
      acc.total + ((foundSrcs sts ids).map (fun d => d.progress.getD 0)).sum ∧
    (mergeLoop sts ids acc).all_completed =
      (acc.all_completed &&
        (foundSrcs sts ids).all (fun d => d.status == some ("completed"))) ∧
    (mergeLoop sts ids acc).merged.notes =
      some (l0 ++ ((foundSrcs sts ids).map (fun d => d.notes.getD [])).flatten) ∧
    (mergeLoop sts ids acc).merged.start_time =
      optOr acc.merged.start_time
        ((foundSrcs sts ids).findSome? (fun d => d.start_time)) ∧
    (mergeLoop sts ids acc).merged.end_time =
      optOr ((foundSrcs sts ids).reverse.findSome? (fun d => d.end_time))
        acc.merged.end_time ∧
    (mergeLoop sts ids acc).merged.deliverables_status =
      some ((foundSrcs sts ids).foldl
        (fun a d => updList a (d.deliverables_status.getD [])) d0) ∧
    (mergeLoop sts ids acc).merged.status = acc.merged.status ∧
    (mergeLoop sts ids acc).merged.progress = acc.merged.progress ∧
    (mergeLoop sts ids acc).merged.assignee = acc.merged.assignee := by
  induction ids generalizing acc l0 d0 with
  | nil =>
    refine ⟨rfl, ?_, ?_, ?_, ?_, ?_, ?_, rfl, rfl, rfl⟩ <;>
      simp [mergeLoop, foundSrcs, optOr_none_right, optOr_none_left, hn, hd]
  | cons id rest ih =>
    cases h : dictGet sts id with
    | none =>
      have hloop : mergeLoop sts (id :: rest) acc = mergeLoop sts rest acc := by
        simp [mergeLoop, h]
      have hfs : foundSrcs sts (id :: rest) = foundSrcs sts rest := by
        simp [foundSrcs, List.filterMap_cons, h]
      rw [hloop, hfs]
      exact ih acc l0 d0 hn hd
    | some d =>
      have hloop : mergeLoop sts (id :: rest) acc =
          mergeLoop sts rest (mergeStep acc d) := by
        simp [mergeLoop, h]
      have hfs : foundSrcs sts (id :: rest) = d :: foundSrcs sts rest := by
        simp [foundSrcs, List.filterMap_cons, h]
      rw [hloop, hfs]
      have hn2 : (mergeStep acc d).merged.notes =
          some (l0 ++ d.notes.getD []) := by
        simp [mergeStep, hn]
      have hd2 : (mergeStep acc d).merged.deliverables_status =
          some (updList d0 (d.deliverables_status.getD [])) := by
        simp [mergeStep, hd]
      obtain ⟨h1, h2, h3, h4, h5, h6, h7, h8, h9, h10⟩ :=
        ih (mergeStep acc d) (l0 ++ d.notes.getD [])
          (updList d0 (d.deliverables_status.getD [])) hn2 hd2
      refine ⟨?_, ?_, ?_, ?_, ?_, ?_, ?_, ?_, ?_, ?_⟩
      · rw [h1]
        show acc.valid + 1 + _ = _
        simp only [List.length_cons]
        omega
      · rw [h2]
        show acc.total + d.progress.getD 0 + _ = _
        simp only [List.map_cons, List.sum_cons]
        ring
      · rw [h3]
        simp only [List.all_cons, mergeStep, Bool.and_assoc]
      · rw [h4]
        simp only [List.map_cons, List.flatten_cons, List.append_assoc]
      · rw [h5, mergeStep_start, findSome?_cons, optOr_assoc]
      · rw [h6, mergeStep_end, List.reverse_cons, findSome?_append,
          findSome?_singleton, optOr_assoc]
      · rw [h7]
        simp only [List.foldl_cons]
      · rw [h8]
        rfl
      · rw [h9]
        rfl
      · rw [h10]
        rfl

/-- Claim C6, counterexample: merging two in-progress sources with zero
progress yields status `in_progress` (the claim requires `PENDING` when no
source has non-zero progress), and the merged timestamps are the first
`start_time` and the last `end_time` in mapping order (5 and 7), not the
earliest start (3) and the latest end (10). -/
theorem merge_stage_states_claim_false :
    dX.progress = some 0 ∧ dY.progress = some 0 ∧
    dX.status ≠ some ("completed") ∧ dY.status ≠ some ("completed") ∧
    (merge_stage_states exSts (["X", "Y"])).status = some ("in_progress") ∧
    (merge_stage_states exSts (["X", "Y"])).status ≠ some ("pending") ∧
    (merge_stage_states exSts (["X", "Y"])).start_time = some 5 ∧
    (merge_stage_states exSts (["X", "Y"])).start_time ≠ some 3 ∧
    (merge_stage_states exSts (["X", "Y"])).end_time = some 7 ∧
    (merge_stage_states exSts (["X", "Y"])).end_time ≠ some 10 := by
  refine ⟨rfl, rfl, by decide, by decide, rfl, by decide, rfl, by decide,
    rfl, by decide⟩

/-- Claim C6, amended: merging the found source stage states gives status
`completed` with progress forced to 100 only when every found source is
`completed`; otherwise — whenever at least one source state exists, even
with all progress values zero — status `in_progress` with progress the
floor average of the progress values of the found sources.  Notes concatenate in
source order; the deliverables map is the union with later entries
overwriting on key collision (lookup in the reversed concatenation); the
merged `start_time` is the **first** present start time and `end_time` the
**last** present end time, both in mapping order rather than by comparing
instants. -/
theorem merge_stage_states_behavior (sts : List (String × RawStage))
    (ids : List String) (hne : foundSrcs sts ids ≠ []) :
    ((foundSrcs sts ids).all (fun d => d.status == some ("completed"))
        = true →
      (merge_stage_states sts ids).status = some ("completed") ∧
      (merge_stage_states sts ids).progress = some 100) ∧
    ((foundSrcs sts ids).all (fun d => d.status == some ("completed"))
        = false →
      (merge_stage_states sts ids).status = some ("in_progress") ∧
      (merge_stage_states sts ids).progress = some (Int.fdiv
        ((foundSrcs sts ids).map (fun d => d.progress.getD 0)).sum
        (foundSrcs sts ids).length)) ∧
    (merge_stage_states sts ids).notes =
      some (((foundSrcs sts ids).map (fun d => d.notes.getD [])).flatten) ∧
    (merge_stage_states sts ids).start_time =
      (foundSrcs sts ids).findSome? (fun d => d.start_time) ∧
    (merge_stage_states sts ids).end_time =
      (foundSrcs sts ids).reverse.findSome? (fun d => d.end_time) ∧
    (∀ k, dictGet
        ((merge_stage_states sts ids).deliverables_status.getD []) k =
      dictGet (((foundSrcs sts ids).map
        (fun d => d.deliverables_status.getD [])).flatten).reverse k) := by
  obtain ⟨h1, h2, h3, h4, h5, h6, h7, h8, h9, h10⟩ :=
    mergeLoop_spec sts ids mergeInit [] [] rfl rfl
  have hvalid : (mergeLoop sts ids mergeInit).valid =
      (foundSrcs sts ids).length := by
    rw [h1]
    simp [mergeInit]
  have hpos : 0 < (mergeLoop sts ids mergeInit).valid := by
    rw [hvalid]
    exact List.length_pos.mpr hne
  have hzeta : merge_stage_states sts ids =
      (if ((mergeLoop sts ids mergeInit).all_completed &&
          decide (0 < (mergeLoop sts ids mergeInit).valid)) = true then
        { (mergeLoop sts ids mergeInit).merged with
          status := some ("completed"), progress := some 100 }
      else if 0 < (mergeLoop sts ids mergeInit).valid then
        { (mergeLoop sts ids mergeInit).merged with
          status := some ("in_progress"),
          progress := some (Int.fdiv (mergeLoop sts ids mergeInit).total
            (mergeLoop sts ids mergeInit).valid) }
      else (mergeLoop sts ids mergeInit).merged) := rfl
  have hfields : (merge_stage_states sts ids).notes =
        (mergeLoop sts ids mergeInit).merged.notes ∧
      (merge_stage_states sts ids).start_time =
        (mergeLoop sts ids mergeInit).merged.start_time ∧
      (merge_stage_states sts ids).end_time =
        (mergeLoop sts ids mergeInit).merged.end_time ∧
      (merge_stage_states sts ids).deliverables_status =
        (mergeLoop sts ids mergeInit).merged.deliverables_status := by
    rw [hzeta]
    by_cases hc1 : ((mergeLoop sts ids mergeInit).all_completed &&
        decide (0 < (mergeLoop sts ids mergeInit).valid)) = true
    · rw [if_pos hc1]
      exact ⟨rfl, rfl, rfl, rfl⟩
    · rw [if_neg hc1, if_pos hpos]
      exact ⟨rfl, rfl, rfl, rfl⟩
  refine ⟨?_, ?_, ?_, ?_, ?_, ?_⟩
  · intro hall
    have hcond : ((mergeLoop sts ids mergeInit).all_completed &&
        decide (0 < (mergeLoop sts ids mergeInit).valid)) = true := by
      rw [h3, hall]
      rw [show mergeInit.all_completed = true from rfl]
      simp [hpos]
    have hres : merge_stage_states sts ids =
        { (mergeLoop sts ids mergeInit).merged with
          status := some ("completed"), progress := some 100 } := by
      rw [hzeta, if_pos hcond]
    rw [hres]
    exact ⟨rfl, rfl⟩
  · intro hall
    have hcond : ¬ (((mergeLoop sts ids mergeInit).all_completed &&
        decide (0 < (mergeLoop sts ids mergeInit).valid)) = true) := by
      rw [h3, hall]
      simp
    have hres : merge_stage_states sts ids =
        { (mergeLoop sts ids mergeInit).merged with
          status := some ("in_progress"),
          progress := some (Int.fdiv (mergeLoop sts ids mergeInit).total
            (mergeLoop sts ids mergeInit).valid) } := by
      rw [hzeta, if_neg hcond, if_pos hpos]
    rw [hres]
    refine ⟨rfl, ?_⟩
    show some (Int.fdiv (mergeLoop sts ids mergeInit).total
      (mergeLoop sts ids mergeInit).valid) = _
    rw [h2, hvalid, show mergeInit.total = 0 from rfl, zero_add]
  · rw [hfields.1, h4]
    simp
  · rw [hfields.2.1, h5]
    exact optOr_none_left _
  · rw [hfields.2.2.1, h6]
    exact optOr_none_right _
  · intro k
    rw [hfields.2.2.2, h7]
    show dictGet ((foundSrcs sts ids).foldl
      (fun a d => updList a (d.deliverables_status.getD [])) []) k = _
    have := dictGet_foldl_updList
      ((foundSrcs sts ids).map (fun d => d.deliverables_status.getD []))
      ([] : List (String × Bool)) k
    rw [List.foldl_map] at this
    rw [this, dictGet_nil, optOr_none_right]

/-- Witness for the amended C6 at the example given in the specification: X
completed at 100 and Y in progress at 50 merge to `in_progress`, progress
75, notes X then Y. -/
theorem merge_stage_states_behavior_witness :
    foundSrcs sts2 (["X", "Y"]) ≠ [] ∧
    (merge_stage_states sts2 (["X", "Y"])).status = some ("in_progress") ∧
    (merge_stage_states sts2 (["X", "Y"])).progress = some 75 ∧
    (merge_stage_states sts2 (["X", "Y"])).notes = some (["a", "b"]) := by
  have h := merge_stage_states_behavior sts2 (["X", "Y"]) (by decide)
  refine ⟨by decide, (h.2.1 (by decide)).1, ?_, ?_⟩
  · rw [(h.2.1 (by decide)).2]
    decide
  · rw [h.2.2.1]
    decide

end TaskMaster
